import Mathlib

/-!
Verification of the MicroDB transactional runtime.

Shallow embedding of the Rust sources under `src/microdb/src/`:
`transaction.rs` (TransactionManager), `entity.rs` (Entity and its
mutable-access undo capture), `table.rs` (Table, TableBase rollback ops),
`lib.rs` (CommandEngine replay and status, Engine construction) and
`transaction_storage.rs` (length-prefixed journal records).

Machine integers (`usize`, `u64`) are modelled as `Nat`; serialized byte
buffers (`Vec<u8>`) as `List Nat`; `HashMap<usize, Entity<_>>` as a function
`Nat → Option (Entity _)`; the bincode codec is an abstract pair
`ser : V → List Nat`, `de : List Nat → V`.
-/

namespace MicroDB

/-- transaction.rs, `TransactionEntry`: one undo-log entry.
`existing table_id entity_id serialized_state` records an entity that
existed before the transaction; `notExisting table_id entity_id` records an
entity created by the transaction. -/
inductive TransactionEntry where
  | existing : Nat → Nat → List Nat → TransactionEntry
  | notExisting : Nat → Nat → TransactionEntry
deriving DecidableEq

/-- Table id of an undo entry. -/
def TransactionEntry.tableId : TransactionEntry → Nat
  | .existing t _ _ => t
  | .notExisting t _ => t

/-- Entity id of an undo entry. -/
def TransactionEntry.entityId : TransactionEntry → Nat
  | .existing _ i _ => i
  | .notExisting _ i => i

/-- transaction.rs, `TransactionManager` state: the current transaction id,
the in-memory undo log and the running flag. -/
structure TransactionManager where
  transaction_id : Nat
  entries : List TransactionEntry
  transaction_running : Bool
deriving DecidableEq

namespace TransactionManager

/-- transaction.rs, `TransactionManager::new`. -/
def new : TransactionManager := ⟨1, [], false⟩

/-- transaction.rs, `TransactionManager::is_transaction_running`. -/
def is_transaction_running (tm : TransactionManager) : Bool :=
  tm.transaction_running

/-- transaction.rs, `TransactionManager::begin_transaction`: sets the running
flag and increments the transaction id.  The source performs no precondition
check and cannot fail. -/
def begin_transaction (tm : TransactionManager) : TransactionManager :=
  { tm with transaction_running := true, transaction_id := tm.transaction_id + 1 }

/-- transaction.rs, `TransactionManager::commit_transaction`: clears the
running flag and the undo log. -/
def commit_transaction (tm : TransactionManager) : TransactionManager :=
  { tm with transaction_running := false, entries := [] }

/-- transaction.rs, `TransactionManager::add_entry`: appends an undo entry. -/
def add_entry (tm : TransactionManager) (e : TransactionEntry) : TransactionManager :=
  { tm with entries := tm.entries ++ [e] }

/-- transaction.rs, `TransactionManager::get_transaction_id`. -/
def get_transaction_id (tm : TransactionManager) : Nat :=
  tm.transaction_id

end TransactionManager

/-- entity.rs, `Entity<T>`: a stored value together with its entity id, the
id of its owning table, and the id of the last transaction in which it was
snapshotted for undo. -/
structure Entity (V : Type) where
  id : Nat
  table_id : Nat
  val : V
  last_modified_transaction_id : Nat
deriving DecidableEq

/-- entity.rs, `Entity::new`: the snapshot marker starts at 0. -/
def Entity.new {V : Type} (id table_id : Nat) (val : V) : Entity V :=
  ⟨id, table_id, val, 0⟩

/-- entity.rs, `DerefMut for Entity`: on mutable access, if a transaction is
running and the entity has not been snapshotted in this transaction
(`get_transaction_id() > last_modified_transaction_id`), append an
`Existing` entry holding the serialized current value and stamp the entity
with the current transaction id.  Returns the updated manager and entity;
the caller then mutates the value through the returned reference. -/
def Entity.deref_mut {V : Type} (ser : V → List Nat) (tm : TransactionManager)
    (e : Entity V) : TransactionManager × Entity V :=
  if tm.is_transaction_running then
    if e.last_modified_transaction_id < tm.get_transaction_id then
      (tm.add_entry (.existing e.table_id e.id (ser e.val)),
        { e with last_modified_transaction_id := tm.get_transaction_id })
    else (tm, e)
  else (tm, e)

/-- table.rs, `Table<T>`: the table id (a stable hash of the name in the
source; here the id itself), the row map and the `first_free_id` counter. -/
structure Table (V : Type) where
  id : Nat
  rows : Nat → Option (Entity V)
  first_free_id : Nat

namespace Table

/-- table.rs, `Table::new`: empty rows, `first_free_id = 1`. -/
def new {V : Type} (id : Nat) : Table V :=
  ⟨id, fun _ => none, 1⟩

/-- table.rs, `Table::get`. -/
def get {V : Type} (t : Table V) (id : Nat) : Option (Entity V) :=
  t.rows id

/-- table.rs, `Table::add`: assigns `first_free_id`, increments the counter,
inserts a fresh entity, and — only while a transaction is running — appends a
`NotExisting` undo entry.  Returns the new table, the new manager state and
the assigned id. -/
def add {V : Type} (t : Table V) (tm : TransactionManager) (item : V) :
    Table V × TransactionManager × Nat :=
  let id := t.first_free_id
  let entity := Entity.new id t.id item
  let t1 : Table V :=
    { t with rows := fun k => if k = id then some entity else t.rows k,
             first_free_id := id + 1 }
  let tm1 :=
    if tm.is_transaction_running then tm.add_entry (.notExisting t.id id) else tm
  (t1, tm1, id)

/-- table.rs, `Table::remove`: removes the row unconditionally and records
nothing in the undo log. -/
def remove {V : Type} (t : Table V) (id : Nat) : Table V :=
  { t with rows := fun k => if k = id then none else t.rows k }

/-- table.rs, `TableBase::rollback_to_existing`: drop any current row with
this id and re-insert a fresh entity deserialized from the recorded bytes
(its snapshot marker restarts at 0). -/
def rollback_to_existing {V : Type} (de : List Nat → V) (t : Table V)
    (id : Nat) (state : List Nat) : Table V :=
  { t with rows := fun k => if k = id then some (Entity.new id t.id (de state)) else t.rows k }

/-- table.rs, `TableBase::rollback_to_not_existing`: remove the row. -/
def rollback_to_not_existing {V : Type} (t : Table V) (id : Nat) : Table V :=
  { t with rows := fun k => if k = id then none else t.rows k }

end Table

/-- lib.rs, the `Database` trait: a family of tables indexed by table id;
`get_table_mut table_id` is application of the function. -/
def Db (V : Type) : Type := Nat → Table V

/-- Replace one table of the database. -/
def Db.update {V : Type} (db : Db V) (tid : Nat) (t : Table V) : Db V :=
  fun k => if k = tid then t else db k

/-- Observable content of a database cell: the stored value at a
(table id, entity id) pair, ignoring bookkeeping fields. -/
def Db.valAt {V : Type} (db : Db V) (tid id : Nat) : Option V :=
  ((db tid).rows id).map Entity.val

/-- Two databases have equal observable contents: every table holds the same
values at the same ids. -/
def Db.contentsEq {V : Type} (db1 db2 : Db V) : Prop :=
  ∀ tid id, db1.valAt tid id = db2.valAt tid id

/-- One iteration of the rollback loop in transaction.rs,
`TransactionManager::rollback_transaction`: resolve the table via
`get_table_mut` and dispatch on the entry kind. -/
def applyEntry {V : Type} (de : List Nat → V) (db : Db V) :
    TransactionEntry → Db V
  | .existing table_id id state =>
      db.update table_id ((db table_id).rollback_to_existing de id state)
  | .notExisting table_id id =>
      db.update table_id ((db table_id).rollback_to_not_existing id)

/-- transaction.rs, `TransactionManager::rollback_transaction`: walks the
undo entries in insertion order, dispatching each against the database, then
clears the entry list.  The source does not modify `transaction_running`
here. -/
def TransactionManager.rollback_transaction {V : Type} (de : List Nat → V)
    (tm : TransactionManager) (db : Db V) : TransactionManager × Db V :=
  ({ tm with entries := [] }, tm.entries.foldl (applyEntry de) db)

/-- A primitive database mutation performed by a command handler:
`addOp` is `db.table.add value`, `mutOp` is a mutable entity access
(`get_mut` + `DerefMut` + assignment of the new value), `remOp` is
`db.table.remove id`. -/
inductive DbOp (V : Type) where
  | addOp : Nat → V → DbOp V
  | mutOp : Nat → Nat → (V → V) → DbOp V
  | remOp : Nat → Nat → DbOp V

/-- Execute one primitive mutation against the database and the transaction
manager, as the table and entity code does it.  A `mutOp` on a missing id is
a no-op (the source's `get_mut` returns `None` there). -/
def execOp {V : Type} (ser : V → List Nat) (s : Db V × TransactionManager) :
    DbOp V → Db V × TransactionManager
  | .addOp tid v =>
      let r := (s.1 tid).add s.2 v
      (s.1.update tid r.1, r.2.1)
  | .mutOp tid id f =>
      match (s.1 tid).rows id with
      | none => s
      | some e =>
          let r := e.deref_mut ser s.2
          (s.1.update tid
            { s.1 tid with
              rows := fun k =>
                if k = id then some { r.2 with val := f r.2.val } else (s.1 tid).rows k },
            r.1)
  | .remOp tid id => (s.1.update tid ((s.1 tid).remove id), s.2)

/-- Execute a command handler's mutations in order. -/
def exec {V : Type} (ser : V → List Nat) (ops : List (DbOp V))
    (s : Db V × TransactionManager) : Db V × TransactionManager :=
  ops.foldl (execOp ser) s

/-- Repeated mutable access to one entity within a transaction: each element
of the list is one mutable acquisition followed by a write of the new
value. -/
def applyMuts {V : Type} (ser : V → List Nat) :
    List (V → V) → TransactionManager × Entity V → TransactionManager × Entity V
  | [], s => s
  | f :: fs, s =>
      let r := s.2.deref_mut ser s.1
      applyMuts ser fs (r.1, { r.2 with val := f r.2.val })

/-- The undo entries concerning one (table id, entity id) pair, in log
order. -/
def entriesFor (tid id : Nat) (es : List TransactionEntry) : List TransactionEntry :=
  es.filter (fun en => en.tableId == tid && en.entityId == id)

-- ***************************** Command engine ***************************** --

/-- transaction_storage.rs, `SerializedTransaction`: a journal record. -/
structure SerializedTransaction where
  name : String
  serialized_parameters : List Nat
deriving DecidableEq

/-- lib.rs, `TransactionStatus`. -/
inductive TransactionStatus where
  | completed
  | failed
  | notExecuted
deriving DecidableEq

/-- The counter and failure state of lib.rs, `CommandEngine` (the fields the
claims mention; locks are erased). -/
structure CommandEngineSt where
  last_pushed_transaction_id : Nat
  last_processed_transaction_id : Nat
  failed_transaction_ids : List Nat
deriving DecidableEq

/-- The replay loop of lib.rs, `CommandEngine::new`: for each journal record
resolve the command by name and run it on the database
(`dir name params db`), incrementing the processed counter; a record whose
command now errs is fatal (`expect`), modelled as `none`. -/
def replayAll {D : Type} (dir : String → List Nat → D → Except String D) :
    List SerializedTransaction → D → Nat → Option (D × Nat)
  | [], db, n => some (db, n)
  | r :: rs, db, n =>
      match dir r.name r.serialized_parameters db with
      | .ok db1 => replayAll dir rs db1 (n + 1)
      | .error _ => none

/-- lib.rs, `CommandEngine::new`: drain the journal, then initialize the
engine state with `last_pushed_transaction_id = last_processed_transaction_id`
set to the number of replayed records and no failed ids.  A replay failure is
fatal (`none`). -/
def CommandEngine.new {D : Type} (dir : String → List Nat → D → Except String D)
    (journal : List SerializedTransaction) (db : D) : Option (CommandEngineSt × D) :=
  match replayAll dir journal db 0 with
  | some (db1, n) =>
      some ({ last_pushed_transaction_id := n,
              last_processed_transaction_id := n,
              failed_transaction_ids := [] }, db1)
  | none => none

/-- lib.rs, `CommandEngine::get_transaction_status`. -/
def CommandEngine.get_transaction_status (ce : CommandEngineSt)
    (transaction_id : Nat) : TransactionStatus :=
  if transaction_id > ce.last_processed_transaction_id then .notExecuted
  else if transaction_id ∈ ce.failed_transaction_ids then .failed
  else .completed

/-- lib.rs, `Engine::new`: create the database via the factory, run the
`init` seeding function on it, then construct the command engine (which
replays the journal). -/
def Engine.new {V : Type} (dir : String → List Nat → Db V → Except String (Db V))
    (journal : List SerializedTransaction) (create_database : Db V)
    (init : Db V → Db V) : Option (CommandEngineSt × Db V) :=
  let db := create_database
  let db := init db
  CommandEngine.new dir journal db

/-- Modelled from the spec (section 6): the claimed construction order in
which `init_fn` is invoked once *after* journal replay, seeding the
post-replay database.  Kept only for comparison with `Engine.new`, which
embeds the source's order. -/
def Engine.newSpecOrder {V : Type} (dir : String → List Nat → Db V → Except String (Db V))
    (journal : List SerializedTransaction) (create_database : Db V)
    (init : Db V → Db V) : Option (CommandEngineSt × Db V) :=
  (CommandEngine.new dir journal create_database).map (fun p => (p.1, init p.2))

-- ***************************** Journal stream ***************************** --

/-- Little-endian byte image of `n` on `k` bytes (`usize::to_le_bytes` with
`k = 8`). -/
def toLeBytes : Nat → Nat → List Nat
  | 0, _ => []
  | k + 1, n => n % 256 :: toLeBytes k (n / 256)

/-- `usize::from_le_bytes`; missing trailing bytes read as zero, as the
source's zero-initialized buffer does. -/
def fromLeBytes : List Nat → Nat
  | [] => 0
  | b :: bs => b + 256 * fromLeBytes bs

/-- A journal byte stream: the written bytes and the read cursor. -/
structure ByteStream where
  data : List Nat
  pos : Nat
deriving DecidableEq

/-- `TransactionStorage::read`: fill the buffer from the current position,
return the bytes obtained (their count is the source's return value) and
advance the cursor by that count. -/
def ByteStream.read (s : ByteStream) (n : Nat) : List Nat × ByteStream :=
  let bs := (s.data.drop s.pos).take n
  (bs, { s with pos := s.pos + bs.length })

/-- `TransactionStorage::write`: append the bytes. -/
def ByteStream.write (s : ByteStream) (bs : List Nat) : ByteStream :=
  { s with data := s.data ++ bs }

/-- transaction_storage.rs, default method `TransactionStorage::add`:
`name_length` (u64 LE), name bytes, `params_length` (u64 LE), parameter
bytes. -/
def TransactionStorage.add (s : ByteStream) (name serialized_parameters : List Nat) :
    ByteStream :=
  (((s.write (toLeBytes 8 name.length)).write name).write
      (toLeBytes 8 serialized_parameters.length)).write serialized_parameters

/-- transaction_storage.rs, default method `TransactionStorage::get`: read
the 8-byte name length — a zero read count means the stream is exhausted and
yields `None` — then the name, the 8-byte parameter length and the
parameters. -/
def TransactionStorage.get (s : ByteStream) :
    Option ((List Nat × List Nat) × ByteStream) :=
  let r1 := s.read 8
  if r1.1.length = 0 then none
  else
    let name_length := fromLeBytes r1.1
    let r2 := r1.2.read name_length
    let r3 := r2.2.read 8
    let params_length := fromLeBytes r3.1
    let r4 := r3.2.read params_length
    some ((r2.1, r4.1), r4.2)

/-- Read up to `fuel` records from the stream, stopping at `None`. -/
def readRecords : Nat → ByteStream → List (List Nat × List Nat) × ByteStream
  | 0, s => ([], s)
  | fuel + 1, s =>
      match TransactionStorage.get s with
      | none => ([], s)
      | some (r, s1) =>
          let rest := readRecords fuel s1
          (r :: rest.1, rest.2)

/-- The byte encoding `TransactionStorage::add` appends for one record. -/
def encRecord (r : List Nat × List Nat) : List Nat :=
  toLeBytes 8 r.1.length ++ r.1 ++ toLeBytes 8 r.2.length ++ r.2

/-- A journal built by appending the given records to an empty stream. -/
def mkJournal (rs : List (List Nat × List Nat)) : ByteStream :=
  rs.foldl (fun s r => TransactionStorage.add s r.1 r.2) ⟨[], 0⟩

-- ***************************** Table op traces ***************************** --

/-- An operation on one table over a process lifetime: an insertion, an
unconditional removal, or one of the two rollback callbacks. -/
inductive TableOp (V : Type) where
  | addT : V → TableOp V
  | removeT : Nat → TableOp V
  | rbExistingT : Nat → List Nat → TableOp V
  | rbNotExistingT : Nat → TableOp V

/-- Apply one table operation (the table-state part; `addT` uses a fresh,
not-running manager since `Table::add` changes the table identically either
way). -/
def applyTableOp {V : Type} (de : List Nat → V) (t : Table V) :
    TableOp V → Table V
  | .addT v => ((t.add TransactionManager.new v).1)
  | .removeT id => t.remove id
  | .rbExistingT id st => t.rollback_to_existing de id st
  | .rbNotExistingT id => t.rollback_to_not_existing id

/-- The ids handed out by the `addT` operations of a trace, in call order. -/
def addsIds {V : Type} (de : List Nat → V) (t : Table V) :
    List (TableOp V) → List Nat
  | [] => []
  | .addT v :: rest => t.first_free_id :: addsIds de (applyTableOp de t (.addT v)) rest
  | op :: rest => addsIds de (applyTableOp de t op) rest

/-- Number of insertions in a trace. -/
def numAdds {V : Type} : List (TableOp V) → Nat
  | [] => 0
  | .addT _ :: rest => numAdds rest + 1
  | _ :: rest => numAdds rest

/-- The consecutive ids `s, s+1, …` of length `n`. -/
def idsFrom : Nat → Nat → List Nat
  | _, 0 => []
  | s, n + 1 => s :: idsFrom (s + 1) n

/-- In-process well-formedness of a trace: `rollback_to_existing` is only
ever invoked with an id recorded from a live entity, hence one below the
table's `first_free_id` at that point (the transaction manager's entries
satisfy this by construction). -/
def opsWF {V : Type} (de : List Nat → V) : Table V → List (TableOp V) → Prop
  | _, [] => True
  | t, op :: rest =>
      (match op with
        | .rbExistingT id _ => id < t.first_free_id
        | _ => True) ∧ opsWF de (applyTableOp de t op) rest

/-- The table invariant: every live id is below `first_free_id`. -/
def tableInv {V : Type} (t : Table V) : Prop :=
  ∀ id e, t.rows id = some e → id < t.first_free_id

-- ***************************** Concrete instances ***************************** --

/-- Concrete one-byte codec for `Nat` values, used by witnesses. -/
def serNat : Nat → List Nat := fun n => [n]

/-- Concrete decoder matching `serNat`. -/
def deNat : List Nat → Nat := fun l => l.headD 0

/-- A database of empty tables. -/
def dbEmptyNat : Db Nat := fun tid => ⟨tid, fun _ => none, 1⟩

/-- Pre-transaction database for the rollback counterexample: table 0 holds
entity 1 with value 7. -/
def c1db0 : Db Nat := fun tid =>
  if tid = 0 then ⟨0, fun id => if id = 1 then some (Entity.new 1 0 7) else none, 2⟩
  else ⟨tid, fun _ => none, 1⟩

/-- A manager state right after `begin_transaction`. -/
def tmRunning2 : TransactionManager := ⟨2, [], true⟩

/-- Insert a value into a table of a database outside any transaction (the
seeding path of `Engine::new` and the replay path both run with the manager
not running). -/
def addPlain (db : Db Nat) (tid v : Nat) : Db Nat :=
  db.update tid ((db tid).add TransactionManager.new v).1

/-- A command directory with a single command that inserts the value 20 into
table 0; parameters are ignored. -/
def c7dir : String → List Nat → Db Nat → Except String (Db Nat) :=
  fun _ _ db => .ok (addPlain db 0 20)

/-- A journal holding one record for the directory above. -/
def c7journal : List SerializedTransaction := [⟨"addTwenty", []⟩]

/-- Seeding function inserting the value 10 into table 0. -/
def c7init : Db Nat → Db Nat := fun db => addPlain db 0 10

-- ***************************** Invariant predicates ***************************** --

/-- The observable value a rollback dispatch leaves at the entry's own
(table id, entity id) cell: `rollback_to_existing` stores the deserialized
snapshot, `rollback_to_not_existing` leaves nothing. -/
def entryEffectVal {V : Type} (de : List Nat → V) : TransactionEntry → Option V
  | .existing _ _ st => some (de st)
  | .notExisting _ _ => none

/-- Database well-formedness: each table carries its index as its id, and
every entity carries its own coordinates (as `Table::new`, `Table::add` and
the rollback callbacks maintain in the source). -/
def DbWF {V : Type} (db : Db V) : Prop :=
  ∀ tid, (db tid).id = tid ∧
    ∀ id e, (db tid).rows id = some e → e.table_id = tid ∧ e.id = id

/-- Every live id of every table is below that table's `first_free_id`. -/
def DbIdsBound {V : Type} (db : Db V) : Prop :=
  ∀ tid id e, (db tid).rows id = some e → id < (db tid).first_free_id

/-- No entity has been snapshotted in transaction `txn` yet: all snapshot
markers lie strictly below `txn` (guaranteed before a transaction because
`begin_transaction` strictly increases the transaction id). -/
def DbFresh {V : Type} (db : Db V) (txn : Nat) : Prop :=
  ∀ tid id e, (db tid).rows id = some e →
    e.last_modified_transaction_id < txn

/-- The mutations a command may perform for the rollback-restoration
theorem: insertions, and mutable access to entities that already existed
before the transaction; no `remove`, and no mutable access to entities the
transaction itself created. -/
def opOK {V : Type} (db0 : Db V) : DbOp V → Prop
  | .addOp _ _ => True
  | .mutOp tid id _ => ∃ e, (db0 tid).rows id = some e
  | .remOp _ _ => False

/-- Mid-transaction classification of one (table id, entity id) cell
relative to the pre-transaction database `db0`: untouched, snapshotted (one
`Existing` entry holding the pre-transaction value), or created by the
transaction (one `NotExisting` entry). -/
def PerId {V : Type} (db0 : Db V) (ser : V → List Nat) (txn : Nat)
    (s : Db V × TransactionManager) (tid id : Nat) : Prop :=
  (entriesFor tid id s.2.entries = [] ∧ (s.1 tid).rows id = (db0 tid).rows id)
  ∨ (∃ e0 e, (db0 tid).rows id = some e0 ∧ (s.1 tid).rows id = some e ∧
      e.last_modified_transaction_id = txn ∧
      entriesFor tid id s.2.entries = [.existing tid id (ser e0.val)])
  ∨ ((db0 tid).rows id = none ∧ (∃ e, (s.1 tid).rows id = some e) ∧
      entriesFor tid id s.2.entries = [.notExisting tid id])

/-- The execution invariant tying a mid-transaction state to the
pre-transaction database `db0`. -/
structure ExecInv {V : Type} (db0 : Db V) (ser : V → List Nat) (txn : Nat)
    (s : Db V × TransactionManager) : Prop where
  htxn : s.2.transaction_id = txn
  hrun : s.2.transaction_running = true
  hffle : ∀ tid, (db0 tid).first_free_id ≤ (s.1 tid).first_free_id
  hrows : DbIdsBound s.1
  hwf : DbWF s.1
  hent : ∀ en ∈ s.2.entries, en.entityId < (s.1 en.tableId).first_free_id
  hcase : ∀ tid id, PerId db0 ser txn s tid id

/-- Concatenated byte encoding of a record list. -/
def encAll : List (List Nat × List Nat) → List Nat
  | [] => []
  | r :: rs => encRecord r ++ encAll rs

-- ============================= Journal lemmas ============================= --

theorem toLeBytes_length (k n : Nat) : (toLeBytes k n).length = k := by
  induction k generalizing n with
  | zero => rfl
  | succ k ih => simp [toLeBytes, ih]

theorem fromLeBytes_toLeBytes (k n : Nat) (h : n < 256 ^ k) :
    fromLeBytes (toLeBytes k n) = n := by
  induction k generalizing n with
  | zero =>
      simp only [pow_zero, Nat.lt_one_iff] at h
      simp [h, toLeBytes, fromLeBytes]
  | succ k ih =>
      have h2 : n / 256 < 256 ^ k := by
        rw [Nat.div_lt_iff_lt_mul (by norm_num : 0 < 256)]
        rw [pow_succ] at h
        exact h
      rw [toLeBytes, fromLeBytes, ih _ h2]
      exact Nat.mod_add_div n 256

theorem read_chunk (s : ByteStream) (xs rest : List Nat)
    (h : s.data.drop s.pos = xs ++ rest) :
    s.read xs.length = (xs, ⟨s.data, s.pos + xs.length⟩) ∧
      s.data.drop (s.pos + xs.length) = rest := by
  constructor
  · simp only [ByteStream.read, h, List.take_left]
  · rw [← List.drop_drop, h, List.drop_left]

theorem get_encRecord (s : ByteStream) (nm ps rest : List Nat)
    (hn : nm.length < 256 ^ 8) (hp : ps.length < 256 ^ 8)
    (h : s.data.drop s.pos = encRecord (nm, ps) ++ rest) :
    TransactionStorage.get s
      = some ((nm, ps), ⟨s.data, s.pos + 8 + nm.length + 8 + ps.length⟩) ∧
      s.data.drop (s.pos + 8 + nm.length + 8 + ps.length) = rest := by
  have hlen8n : (toLeBytes 8 nm.length).length = 8 := toLeBytes_length 8 _
  have hlen8p : (toLeBytes 8 ps.length).length = 8 := toLeBytes_length 8 _
  have h0 : s.data.drop s.pos
      = toLeBytes 8 nm.length ++ (nm ++ (toLeBytes 8 ps.length ++ (ps ++ rest))) := by
    simpa [encRecord] using h
  have c1 := read_chunk s (toLeBytes 8 nm.length) _ h0
  have hr1 : s.read 8 = (toLeBytes 8 nm.length, ⟨s.data, s.pos + 8⟩) := by
    have h1 := c1.1; rw [hlen8n] at h1; exact h1
  have hd1 : s.data.drop (s.pos + 8) = nm ++ (toLeBytes 8 ps.length ++ (ps ++ rest)) := by
    have h1 := c1.2; rw [hlen8n] at h1; exact h1
  have c2 := read_chunk ⟨s.data, s.pos + 8⟩ nm _ hd1
  have hr2 : (⟨s.data, s.pos + 8⟩ : ByteStream).read nm.length
      = (nm, ⟨s.data, s.pos + 8 + nm.length⟩) := c2.1
  have hd2 : s.data.drop (s.pos + 8 + nm.length)
      = toLeBytes 8 ps.length ++ (ps ++ rest) := c2.2
  have c3 := read_chunk ⟨s.data, s.pos + 8 + nm.length⟩ (toLeBytes 8 ps.length) _ hd2
  have hr3 : (⟨s.data, s.pos + 8 + nm.length⟩ : ByteStream).read 8
      = (toLeBytes 8 ps.length, ⟨s.data, s.pos + 8 + nm.length + 8⟩) := by
    have h3 := c3.1; rw [hlen8p] at h3; exact h3
  have hd3 : s.data.drop (s.pos + 8 + nm.length + 8) = ps ++ rest := by
    have h3 := c3.2; rw [hlen8p] at h3; exact h3
  have c4 := read_chunk ⟨s.data, s.pos + 8 + nm.length + 8⟩ ps _ hd3
  have hr4 : (⟨s.data, s.pos + 8 + nm.length + 8⟩ : ByteStream).read ps.length
      = (ps, ⟨s.data, s.pos + 8 + nm.length + 8 + ps.length⟩) := c4.1
  refine ⟨?_, c4.2⟩
  simp only [TransactionStorage.get, hr1, hlen8n,
    fromLeBytes_toLeBytes 8 nm.length hn, hr2, hr3,
    fromLeBytes_toLeBytes 8 ps.length hp, hr4]
  rw [if_neg (by norm_num)]

theorem get_none_iff (s : ByteStream) :
    TransactionStorage.get s = none ↔ s.data.length ≤ s.pos := by
  have hlen : ((s.read 8).1).length = min 8 (s.data.length - s.pos) := by
    simp [ByteStream.read, List.length_take, List.length_drop]
  constructor
  · intro h
    simp only [TransactionStorage.get] at h
    by_cases hc : (s.read 8).1.length = 0
    · rw [hlen] at hc; omega
    · rw [if_neg hc] at h; exact Option.noConfusion h
  · intro h
    have hc : (s.read 8).1.length = 0 := by rw [hlen]; omega
    simp only [TransactionStorage.get]
    rw [if_pos hc]

theorem add_data (s : ByteStream) (nm ps : List Nat) :
    (TransactionStorage.add s nm ps).data = s.data ++ encRecord (nm, ps) ∧
      (TransactionStorage.add s nm ps).pos = s.pos := by
  simp [TransactionStorage.add, ByteStream.write, encRecord, List.append_assoc]

theorem mkJournal_foldl (rs : List (List Nat × List Nat)) :
    ∀ s : ByteStream,
      (rs.foldl (fun s r => TransactionStorage.add s r.1 r.2) s).data
          = s.data ++ encAll rs ∧
        (rs.foldl (fun s r => TransactionStorage.add s r.1 r.2) s).pos = s.pos := by
  induction rs with
  | nil => intro s; simp [encAll]
  | cons r rs ih =>
      intro s
      simp only [List.foldl_cons]
      have h1 := add_data s r.1 r.2
      have h2 := ih (TransactionStorage.add s r.1 r.2)
      refine ⟨?_, by rw [h2.2, h1.2]⟩
      rw [h2.1, h1.1, encAll, List.append_assoc]

theorem readRecords_encAll :
    ∀ (rs : List (List Nat × List Nat)) (s : ByteStream),
      (∀ r ∈ rs, r.1.length < 256 ^ 8 ∧ r.2.length < 256 ^ 8) →
      s.data.drop s.pos = encAll rs →
      (readRecords rs.length s).1 = rs ∧
        (readRecords rs.length s).2.data.length ≤ (readRecords rs.length s).2.pos := by
  intro rs
  induction rs with
  | nil =>
      intro s _ hdrop
      refine ⟨rfl, ?_⟩
      show s.data.length ≤ s.pos
      have : s.data.drop s.pos = [] := hdrop
      have h2 := List.drop_eq_nil_iff.mp this
      exact h2
  | cons r rs ih =>
      intro s hlens hdrop
      obtain ⟨nm, ps⟩ := r
      have hr := hlens (nm, ps) (List.mem_cons_self _ _)
      have hg := get_encRecord s nm ps (encAll rs) hr.1 hr.2 (by simpa [encAll] using hdrop)
      have hrest := ih ⟨s.data, s.pos + 8 + nm.length + 8 + ps.length⟩
        (fun x hx => hlens x (List.mem_cons_of_mem _ hx)) hg.2
      simp only [List.length_cons, readRecords, hg.1]
      exact ⟨by rw [hrest.1], hrest.2⟩

-- ============================= Replay lemmas ============================= --

theorem replayAll_count {D : Type} (dir : String → List Nat → D → Except String D) :
    ∀ (rs : List SerializedTransaction) (db : D) (n m : Nat) (db1 : D),
      replayAll dir rs db n = some (db1, m) → m = n + rs.length := by
  intro rs
  induction rs with
  | nil =>
      intro db n m db1 h
      simp only [replayAll, Option.some.injEq, Prod.mk.injEq] at h
      obtain ⟨h1, h2⟩ := h
      rw [List.length_nil]
      omega
  | cons r rs ih =>
      intro db n m db1 h
      simp only [replayAll] at h
      cases hd : dir r.name r.serialized_parameters db with
      | ok db2 =>
          rw [hd] at h
          have := ih db2 (n + 1) m db1 h
          simp [this]
          omega
      | error e => rw [hd] at h; exact Option.noConfusion h

-- ============================= Table-trace lemmas ============================= --

theorem applyTableOp_first_free {V : Type} (de : List Nat → V) (t : Table V) :
    ∀ op : TableOp V,
      (applyTableOp de t op).first_free_id
        = match op with
          | .addT _ => t.first_free_id + 1
          | _ => t.first_free_id := by
  intro op
  cases op <;> rfl

theorem addsIds_eq {V : Type} (de : List Nat → V) :
    ∀ (ops : List (TableOp V)) (t : Table V),
      addsIds de t ops = idsFrom t.first_free_id (numAdds ops) := by
  intro ops
  induction ops with
  | nil => intro t; rfl
  | cons op rest ih =>
      intro t
      cases op with
      | addT v =>
          have hff : (applyTableOp de t (.addT v)).first_free_id = t.first_free_id + 1 := rfl
          simp only [addsIds, numAdds, idsFrom, ih, hff]
      | removeT id => simp only [addsIds, numAdds, ih]; rfl
      | rbExistingT id st => simp only [addsIds, numAdds, ih]; rfl
      | rbNotExistingT id => simp only [addsIds, numAdds, ih]; rfl

theorem mem_idsFrom (x : Nat) : ∀ (n s : Nat), x ∈ idsFrom s n → s ≤ x := by
  intro n
  induction n with
  | zero => intro s h; simp [idsFrom] at h
  | succ n ih =>
      intro s h
      simp only [idsFrom, List.mem_cons] at h
      rcases h with h | h
      · omega
      · have := ih (s + 1) h; omega

theorem idsFrom_pairwise : ∀ (n s : Nat), List.Pairwise (· < ·) (idsFrom s n) := by
  intro n
  induction n with
  | zero => intro s; simp [idsFrom]
  | succ n ih =>
      intro s
      simp only [idsFrom]
      exact List.Pairwise.cons (fun y hy => by have := mem_idsFrom y n (s + 1) hy; omega)
        (ih (s + 1))

theorem tableInv_step {V : Type} (de : List Nat → V) (t : Table V) (op : TableOp V)
    (hinv : tableInv t)
    (hok : match op with | .rbExistingT id _ => id < t.first_free_id | _ => True) :
    tableInv (applyTableOp de t op) := by
  cases op with
  | addT v =>
      intro id e h
      simp only [applyTableOp, Table.add] at h ⊢
      by_cases hid : id = t.first_free_id
      · omega
      · rw [if_neg hid] at h
        have := hinv id e h
        omega
  | removeT rid =>
      intro id e h
      simp only [applyTableOp, Table.remove] at h ⊢
      by_cases hid : id = rid
      · rw [if_pos hid] at h; exact Option.noConfusion h
      · rw [if_neg hid] at h; exact hinv id e h
  | rbExistingT rid st =>
      intro id e h
      simp only [applyTableOp, Table.rollback_to_existing] at h ⊢
      by_cases hid : id = rid
      · subst hid; exact hok
      · rw [if_neg hid] at h; exact hinv id e h
  | rbNotExistingT rid =>
      intro id e h
      simp only [applyTableOp, Table.rollback_to_not_existing] at h ⊢
      by_cases hid : id = rid
      · rw [if_pos hid] at h; exact Option.noConfusion h
      · rw [if_neg hid] at h; exact hinv id e h

theorem tableInv_fold {V : Type} (de : List Nat → V) :
    ∀ (ops : List (TableOp V)) (t : Table V),
      tableInv t → opsWF de t ops → tableInv (ops.foldl (applyTableOp de) t) := by
  intro ops
  induction ops with
  | nil => intro t hinv _; exact hinv
  | cons op rest ih =>
      intro t hinv hwf
      exact ih _ (tableInv_step de t op hinv hwf.1) hwf.2

theorem foldl_first_free {V : Type} (de : List Nat → V) :
    ∀ (ops : List (TableOp V)) (t : Table V),
      (ops.foldl (applyTableOp de) t).first_free_id = t.first_free_id + numAdds ops := by
  intro ops
  induction ops with
  | nil => intro t; rfl
  | cons op rest ih =>
      intro t
      cases op with
      | addT v =>
          simp only [List.foldl_cons, ih, numAdds]
          have hff : (applyTableOp de t (.addT v)).first_free_id = t.first_free_id + 1 := rfl
          rw [hff]; omega
      | removeT id => simp only [List.foldl_cons, ih, numAdds]; rfl
      | rbExistingT id st => simp only [List.foldl_cons, ih, numAdds]; rfl
      | rbNotExistingT id => simp only [List.foldl_cons, ih, numAdds]; rfl

-- ============================= Entity-access lemmas ============================= --

theorem deref_mut_snap {V : Type} (ser : V → List Nat) (tm : TransactionManager)
    (e : Entity V) (hrun : tm.transaction_running = true)
    (hlm : e.last_modified_transaction_id < tm.transaction_id) :
    e.deref_mut ser tm
      = (tm.add_entry (.existing e.table_id e.id (ser e.val)),
          { e with last_modified_transaction_id := tm.transaction_id }) := by
  simp [Entity.deref_mut, TransactionManager.is_transaction_running, hrun,
    TransactionManager.get_transaction_id, hlm]

theorem deref_mut_already {V : Type} (ser : V → List Nat) (tm : TransactionManager)
    (e : Entity V) (hlm : ¬ e.last_modified_transaction_id < tm.transaction_id) :
    e.deref_mut ser tm = (tm, e) := by
  simp [Entity.deref_mut, TransactionManager.get_transaction_id, hlm]

theorem deref_mut_not_running {V : Type} (ser : V → List Nat) (tm : TransactionManager)
    (e : Entity V) (hrun : tm.transaction_running = false) :
    e.deref_mut ser tm = (tm, e) := by
  simp [Entity.deref_mut, TransactionManager.is_transaction_running, hrun]

theorem applyMuts_stamped {V : Type} (ser : V → List Nat) :
    ∀ (fs : List (V → V)) (tm : TransactionManager) (e : Entity V),
      e.last_modified_transaction_id = tm.transaction_id →
      (applyMuts ser fs (tm, e)).1 = tm ∧
        (applyMuts ser fs (tm, e)).2.last_modified_transaction_id
          = tm.transaction_id := by
  intro fs
  induction fs with
  | nil => intro tm e h; exact ⟨rfl, h⟩
  | cons f fs ih =>
      intro tm e h
      have hd : e.deref_mut ser tm = (tm, e) :=
        deref_mut_already ser tm e (by omega)
      simp only [applyMuts, hd]
      exact ih tm { e with val := f e.val } h

theorem applyMuts_first {V : Type} (ser : V → List Nat) (tm : TransactionManager)
    (e : Entity V) (fs : List (V → V))
    (hrun : tm.transaction_running = true)
    (hlm : e.last_modified_transaction_id < tm.transaction_id)
    (hne : fs ≠ []) :
    (applyMuts ser fs (tm, e)).1.entries
      = tm.entries ++ [.existing e.table_id e.id (ser e.val)] := by
  cases fs with
  | nil => exact absurd rfl hne
  | cons f fs =>
      have hd := deref_mut_snap ser tm e hrun hlm
      simp only [applyMuts, hd]
      have hs := applyMuts_stamped ser fs
        (tm.add_entry (.existing e.table_id e.id (ser e.val)))
        { e with last_modified_transaction_id := tm.transaction_id,
                 val := f e.val }
        (by simp [TransactionManager.add_entry])
      rw [hs.1]
      simp [TransactionManager.add_entry]

-- ============================= Rollback-fold lemmas ============================= --

theorem entriesFor_cons (tid id : Nat) (en : TransactionEntry)
    (es : List TransactionEntry) :
    entriesFor tid id (en :: es)
      = if en.tableId = tid ∧ en.entityId = id
        then en :: entriesFor tid id es else entriesFor tid id es := by
  by_cases h1 : en.tableId = tid <;> by_cases h2 : en.entityId = id <;>
    simp [entriesFor, List.filter_cons, h1, h2]

theorem entriesFor_append (tid id : Nat) (es1 es2 : List TransactionEntry) :
    entriesFor tid id (es1 ++ es2)
      = entriesFor tid id es1 ++ entriesFor tid id es2 := by
  simp [entriesFor, List.filter_append]

theorem entriesFor_eq_nil (tid id : Nat) (es : List TransactionEntry)
    (h : ∀ en ∈ es, ¬ (en.tableId = tid ∧ en.entityId = id)) :
    entriesFor tid id es = [] := by
  induction es with
  | nil => rfl
  | cons en es ih =>
      rw [entriesFor_cons, if_neg (h en (List.mem_cons_self _ _))]
      exact ih (fun x hx => h x (List.mem_cons_of_mem _ hx))

theorem valAt_applyEntry {V : Type} (de : List Nat → V) (db : Db V)
    (en : TransactionEntry) (tid id : Nat) :
    (applyEntry de db en).valAt tid id
      = if en.tableId = tid ∧ en.entityId = id then entryEffectVal de en
        else db.valAt tid id := by
  cases en with
  | existing t i st =>
      simp only [applyEntry, TransactionEntry.tableId, TransactionEntry.entityId,
        entryEffectVal, Db.valAt, Db.update, Table.rollback_to_existing]
      by_cases ht : t = tid
      · subst ht
        by_cases hi : i = id
        · subst hi; simp [Entity.new]
        · simp [hi, Ne.symm hi]
      · have hts : ¬ tid = t := fun h => ht h.symm
        simp [hts, ht]
  | notExisting t i =>
      simp only [applyEntry, TransactionEntry.tableId, TransactionEntry.entityId,
        entryEffectVal, Db.valAt, Db.update, Table.rollback_to_not_existing]
      by_cases ht : t = tid
      · subst ht
        by_cases hi : i = id
        · subst hi; simp
        · simp [hi, Ne.symm hi]
      · have hts : ¬ tid = t := fun h => ht h.symm
        simp [hts, ht]

theorem valAt_rollbackFold {V : Type} (de : List Nat → V) :
    ∀ (es : List TransactionEntry) (db : Db V) (tid id : Nat),
      Db.valAt (es.foldl (applyEntry de) db) tid id
        = (entriesFor tid id es).foldl
            (fun _ en => entryEffectVal de en) (db.valAt tid id) := by
  intro es
  induction es with
  | nil => intro db tid id; rfl
  | cons en es ih =>
      intro db tid id
      simp only [List.foldl_cons]
      rw [ih, entriesFor_cons]
      by_cases h : en.tableId = tid ∧ en.entityId = id
      · rw [if_pos h, List.foldl_cons]
        congr 1
        rw [valAt_applyEntry, if_pos h]
      · rw [if_neg h]
        congr 1
        rw [valAt_applyEntry, if_neg h]

-- ============================= Execution-step lemmas ============================= --

theorem execOp_add {V : Type} (ser : V → List Nat) (db : Db V)
    (tm : TransactionManager) (tid : Nat) (v : V)
    (hrun : tm.transaction_running = true) :
    execOp ser (db, tm) (.addOp tid v)
      = (db.update tid
          ⟨(db tid).id,
            fun k => if k = (db tid).first_free_id
              then some (Entity.new (db tid).first_free_id (db tid).id v)
              else (db tid).rows k,
            (db tid).first_free_id + 1⟩,
          tm.add_entry (.notExisting (db tid).id (db tid).first_free_id)) := by
  simp [execOp, Table.add, TransactionManager.is_transaction_running, hrun]

theorem execOp_mut_some {V : Type} (ser : V → List Nat) (db : Db V)
    (tm : TransactionManager) (tid id : Nat) (f : V → V) (e : Entity V)
    (he : (db tid).rows id = some e) :
    execOp ser (db, tm) (.mutOp tid id f)
      = (db.update tid
          ⟨(db tid).id,
            fun k => if k = id
              then some { (e.deref_mut ser tm).2 with val := f (e.deref_mut ser tm).2.val }
              else (db tid).rows k,
            (db tid).first_free_id⟩,
          (e.deref_mut ser tm).1) := by
  simp [execOp, he]

theorem execOp_mut_snap {V : Type} (ser : V → List Nat) (db : Db V)
    (tm : TransactionManager) (tid id : Nat) (f : V → V) (e : Entity V)
    (he : (db tid).rows id = some e)
    (hrun : tm.transaction_running = true)
    (hlm : e.last_modified_transaction_id < tm.transaction_id) :
    execOp ser (db, tm) (.mutOp tid id f)
      = (db.update tid
          ⟨(db tid).id,
            fun k => if k = id
              then some ⟨e.id, e.table_id, f e.val, tm.transaction_id⟩
              else (db tid).rows k,
            (db tid).first_free_id⟩,
          tm.add_entry (.existing e.table_id e.id (ser e.val))) := by
  rw [execOp_mut_some ser db tm tid id f e he, deref_mut_snap ser tm e hrun hlm]

theorem execOp_mut_already {V : Type} (ser : V → List Nat) (db : Db V)
    (tm : TransactionManager) (tid id : Nat) (f : V → V) (e : Entity V)
    (he : (db tid).rows id = some e)
    (hlm : ¬ e.last_modified_transaction_id < tm.transaction_id) :
    execOp ser (db, tm) (.mutOp tid id f)
      = (db.update tid
          ⟨(db tid).id,
            fun k => if k = id
              then some ⟨e.id, e.table_id, f e.val, e.last_modified_transaction_id⟩
              else (db tid).rows k,
            (db tid).first_free_id⟩,
          tm) := by
  rw [execOp_mut_some ser db tm tid id f e he, deref_mut_already ser tm e hlm]

theorem PerId_congr {V : Type} {db0 : Db V} {ser : V → List Nat} {txn : Nat}
    {s1 s2 : Db V × TransactionManager} (tid id : Nat)
    (hrw : (s2.1 tid).rows id = (s1.1 tid).rows id)
    (hes : entriesFor tid id s2.2.entries = entriesFor tid id s1.2.entries)
    (h : PerId db0 ser txn s1 tid id) : PerId db0 ser txn s2 tid id := by
  unfold PerId at h ⊢
  rw [hrw, hes]
  exact h

theorem execInv_init {V : Type} (db0 : Db V) (ser : V → List Nat) (txn : Nat)
    (hwf0 : DbWF db0) (hb0 : DbIdsBound db0) :
    ExecInv db0 ser txn (db0, ⟨txn, [], true⟩) := by
  refine ⟨rfl, rfl, fun tid => le_refl _, hb0, hwf0, ?_, ?_⟩
  · intro en hen
    simp at hen
  · intro tid id
    exact Or.inl ⟨rfl, rfl⟩

theorem execInv_add {V : Type} {db0 : Db V} {ser : V → List Nat} {txn : Nat}
    {db : Db V} {tm : TransactionManager}
    (hb0 : DbIdsBound db0)
    (inv : ExecInv db0 ser txn (db, tm)) (tid : Nat) (v : V) :
    ExecInv db0 ser txn (execOp ser (db, tm) (.addOp tid v)) := by
  have htxn : tm.transaction_id = txn := inv.htxn
  have hrun : tm.transaction_running = true := inv.hrun
  have hffle : ∀ t2, (db0 t2).first_free_id ≤ (db t2).first_free_id := inv.hffle
  have hrows : DbIdsBound db := inv.hrows
  have hwf : DbWF db := inv.hwf
  have hent : ∀ en ∈ tm.entries, en.entityId < (db en.tableId).first_free_id := inv.hent
  have hcase : ∀ t2 i2, PerId db0 ser txn (db, tm) t2 i2 := inv.hcase
  rw [execOp_add ser db tm tid v hrun, (hwf tid).1]
  set F := (db tid).first_free_id with hF
  have hnone : (db tid).rows F = none := by
    cases h : (db tid).rows F with
    | none => rfl
    | some e => exact absurd (hrows tid F e h) (by omega)
  have hnone0 : (db0 tid).rows F = none := by
    cases h : (db0 tid).rows F with
    | none => rfl
    | some e =>
        have h1 := hb0 tid F e h
        have h2 := hffle tid
        omega
  have henF : entriesFor tid F tm.entries = [] := by
    apply entriesFor_eq_nil
    intro en hen hc
    have h1 := hent en hen
    rw [hc.1, hc.2] at h1
    omega
  set T1 : Table V :=
    ⟨tid, fun k => if k = F then some (Entity.new F tid v) else (db tid).rows k,
      F + 1⟩ with hT1
  set tmq := tm.add_entry (.notExisting tid F) with htmq
  have hT1rows : ∀ k, T1.rows k
      = if k = F then some (Entity.new F tid v) else (db tid).rows k := fun _ => rfl
  have hT1ff : T1.first_free_id = F + 1 := rfl
  have hT1id : T1.id = tid := rfl
  have hup : ∀ t2, Db.update db tid T1 t2 = if t2 = tid then T1 else db t2 :=
    fun _ => rfl
  have htmqe : tmq.entries = tm.entries ++ [.notExisting tid F] := rfl
  have hup_rows : ∀ t2 k, t2 ≠ tid ∨ k ≠ F →
      (Db.update db tid T1 t2).rows k = (db t2).rows k := by
    intro t2 k hor
    rw [hup t2]
    by_cases ht : t2 = tid
    · subst ht
      rw [if_pos rfl, hT1rows]
      rcases hor with h | h
      · exact absurd rfl h
      · rw [if_neg h]
    · rw [if_neg ht]
  refine ⟨by simpa [htmq, TransactionManager.add_entry] using htxn,
          by simpa [htmq, TransactionManager.add_entry] using hrun, ?_, ?_, ?_, ?_, ?_⟩
  · intro t2
    show (db0 t2).first_free_id ≤ (Db.update db tid T1 t2).first_free_id
    rw [hup t2]
    by_cases ht : t2 = tid
    · subst ht
      rw [if_pos rfl, hT1ff]
      have := hffle t2
      omega
    · rw [if_neg ht]
      exact hffle t2
  · intro t2 k e h
    replace h : (Db.update db tid T1 t2).rows k = some e := h
    show k < (Db.update db tid T1 t2).first_free_id
    rw [hup t2] at h ⊢
    by_cases ht : t2 = tid
    · subst ht
      rw [if_pos rfl] at h ⊢
      rw [hT1ff]
      rw [hT1rows] at h
      by_cases hk : k = F
      · omega
      · rw [if_neg hk] at h
        have := hrows t2 k e h
        omega
    · rw [if_neg ht] at h ⊢
      exact hrows t2 k e h
  · intro t2
    show (Db.update db tid T1 t2).id = t2 ∧
      ∀ k e, (Db.update db tid T1 t2).rows k = some e → e.table_id = t2 ∧ e.id = k
    rw [hup t2]
    by_cases ht : t2 = tid
    · subst ht
      rw [if_pos rfl]
      refine ⟨hT1id, ?_⟩
      intro k e h
      rw [hT1rows] at h
      by_cases hk : k = F
      · subst hk
        rw [if_pos rfl] at h
        cases h
        exact ⟨rfl, rfl⟩
      · rw [if_neg hk] at h
        exact (hwf t2).2 k e h
    · rw [if_neg ht]
      exact hwf t2
  · intro en hen
    replace hen : en ∈ tmq.entries := hen
    show en.entityId < (Db.update db tid T1 en.tableId).first_free_id
    rw [htmqe] at hen
    rcases List.mem_append.mp hen with hen | hen
    · have h1 := hent en hen
      rw [hup en.tableId]
      by_cases ht : en.tableId = tid
      · rw [if_pos ht, hT1ff]
        rw [ht] at h1
        omega
      · rw [if_neg ht]
        exact h1
    · rw [List.mem_singleton.mp hen]
      rw [hup]
      simp only [TransactionEntry.tableId, TransactionEntry.entityId, if_pos]
      omega
  · intro t2 i2
    by_cases hpair : t2 = tid ∧ i2 = F
    · obtain ⟨h1, h2⟩ := hpair
      subst h1
      subst h2
      refine Or.inr (Or.inr ⟨hnone0, ⟨Entity.new F t2 v, ?_⟩, ?_⟩)
      · show (Db.update db t2 T1 t2).rows F = _
        rw [hup, if_pos rfl, hT1rows, if_pos rfl]
      · show entriesFor t2 F tmq.entries = _
        rw [htmqe, entriesFor_append, henF, List.nil_append]
        rw [entriesFor_cons]
        rw [if_pos ⟨rfl, rfl⟩]
        rfl
    · refine PerId_congr t2 i2 ?_ ?_ (hcase t2 i2)
      · show (Db.update db tid T1 t2).rows i2 = (db t2).rows i2
        apply hup_rows
        by_cases ht : t2 = tid
        · subst ht
          exact Or.inr (fun h2 => hpair ⟨rfl, h2⟩)
        · exact Or.inl ht
      · show entriesFor t2 i2 tmq.entries = entriesFor t2 i2 tm.entries
        rw [htmqe, entriesFor_append]
        have hz : entriesFor t2 i2 [TransactionEntry.notExisting tid F] = [] := by
          apply entriesFor_eq_nil
          intro en hen hc
          rw [List.mem_singleton.mp hen] at hc
          simp only [TransactionEntry.tableId, TransactionEntry.entityId] at hc
          exact hpair ⟨hc.1.symm, hc.2.symm⟩
        rw [hz, List.append_nil]

theorem execInv_mut {V : Type} {db0 : Db V} {ser : V → List Nat} {txn : Nat}
    {db : Db V} {tm : TransactionManager}
    (hfr : DbFresh db0 txn)
    (inv : ExecInv db0 ser txn (db, tm)) (tid id : Nat) (f : V → V)
    (hok : ∃ e0, (db0 tid).rows id = some e0) :
    ExecInv db0 ser txn (execOp ser (db, tm) (.mutOp tid id f)) := by
  have htxn : tm.transaction_id = txn := inv.htxn
  have hrun : tm.transaction_running = true := inv.hrun
  have hffle : ∀ t2, (db0 t2).first_free_id ≤ (db t2).first_free_id := inv.hffle
  have hrows : DbIdsBound db := inv.hrows
  have hwf : DbWF db := inv.hwf
  have hent : ∀ en ∈ tm.entries, en.entityId < (db en.tableId).first_free_id := inv.hent
  have hcase : ∀ t2 i2, PerId db0 ser txn (db, tm) t2 i2 := inv.hcase
  obtain ⟨e0, he0⟩ := hok
  have hc := hcase tid id
  unfold PerId at hc
  rcases hc with ⟨hf1, hf2⟩ | ⟨e0x, e, he0x, he, helm, hfor⟩ | ⟨hn0, _, _⟩
  · -- first mutable access of this entity in the transaction
    have he : (db tid).rows id = some e0 := by rw [hf2, he0]
    have hlm2 : e0.last_modified_transaction_id < tm.transaction_id := by
      have := hfr tid id e0 he0
      omega
    have hwfe := (hwf tid).2 id e0 he
    have hidlt : id < (db tid).first_free_id := hrows tid id e0 he
    rw [execOp_mut_snap ser db tm tid id f e0 he hrun hlm2, (hwf tid).1,
      hwfe.1, hwfe.2]
    set T2 : Table V :=
      ⟨tid, fun k => if k = id then some ⟨id, tid, f e0.val, tm.transaction_id⟩
        else (db tid).rows k, (db tid).first_free_id⟩ with hT2
    set tmq := tm.add_entry (.existing tid id (ser e0.val)) with htmq
    have hT2rows : ∀ k, T2.rows k
        = if k = id then some ⟨id, tid, f e0.val, tm.transaction_id⟩
          else (db tid).rows k := fun _ => rfl
    have hT2ff : T2.first_free_id = (db tid).first_free_id := rfl
    have hup : ∀ t2, Db.update db tid T2 t2 = if t2 = tid then T2 else db t2 :=
      fun _ => rfl
    have htmqe : tmq.entries = tm.entries ++ [.existing tid id (ser e0.val)] := rfl
    have hff_all : ∀ t2, (Db.update db tid T2 t2).first_free_id
        = (db t2).first_free_id := by
      intro t2
      rw [hup t2]
      by_cases ht : t2 = tid
      · subst ht; rw [if_pos rfl, hT2ff]
      · rw [if_neg ht]
    have hup_rows : ∀ t2 k, t2 ≠ tid ∨ k ≠ id →
        (Db.update db tid T2 t2).rows k = (db t2).rows k := by
      intro t2 k hor
      rw [hup t2]
      by_cases ht : t2 = tid
      · subst ht
        rw [if_pos rfl, hT2rows]
        rcases hor with h | h
        · exact absurd rfl h
        · rw [if_neg h]
      · rw [if_neg ht]
    refine ⟨by simpa [htmq, TransactionManager.add_entry] using htxn,
            by simpa [htmq, TransactionManager.add_entry] using hrun, ?_, ?_, ?_, ?_, ?_⟩
    · intro t2
      show (db0 t2).first_free_id ≤ (Db.update db tid T2 t2).first_free_id
      rw [hff_all t2]
      exact hffle t2
    · intro t2 k e2 h
      replace h : (Db.update db tid T2 t2).rows k = some e2 := h
      show k < (Db.update db tid T2 t2).first_free_id
      rw [hff_all t2]
      by_cases hm : t2 = tid ∧ k = id
      · obtain ⟨h1, h2⟩ := hm; subst h1; subst h2
        exact hidlt
      · rw [hup_rows t2 k (by tauto)] at h
        exact hrows t2 k e2 h
    · intro t2
      show (Db.update db tid T2 t2).id = t2 ∧
        ∀ k e2, (Db.update db tid T2 t2).rows k = some e2 → e2.table_id = t2 ∧ e2.id = k
      rw [hup t2]
      by_cases ht : t2 = tid
      · subst ht
        rw [if_pos rfl]
        refine ⟨rfl, ?_⟩
        intro k e2 h
        rw [hT2rows] at h
        by_cases hk : k = id
        · subst hk
          rw [if_pos rfl] at h
          cases h
          exact ⟨rfl, rfl⟩
        · rw [if_neg hk] at h
          exact (hwf t2).2 k e2 h
      · rw [if_neg ht]
        exact hwf t2
    · intro en hen
      replace hen : en ∈ tmq.entries := hen
      show en.entityId < (Db.update db tid T2 en.tableId).first_free_id
      rw [hff_all]
      rw [htmqe] at hen
      rcases List.mem_append.mp hen with hen | hen
      · exact hent en hen
      · rw [List.mem_singleton.mp hen]
        simp only [TransactionEntry.tableId, TransactionEntry.entityId]
        exact hidlt
    · intro t2 i2
      by_cases hpair : t2 = tid ∧ i2 = id
      · obtain ⟨h1, h2⟩ := hpair
        subst h1
        subst h2
        refine Or.inr (Or.inl ⟨e0, ⟨i2, t2, f e0.val, tm.transaction_id⟩, he0, ?_, ?_, ?_⟩)
        · show (Db.update db t2 T2 t2).rows i2 = _
          rw [hup, if_pos rfl, hT2rows, if_pos rfl]
        · show (⟨i2, t2, f e0.val, tm.transaction_id⟩ : Entity V).last_modified_transaction_id = txn
          exact htxn
        · show entriesFor t2 i2 tmq.entries = _
          rw [htmqe, entriesFor_append, hf1, List.nil_append]
          rw [entriesFor_cons]
          rw [if_pos ⟨rfl, rfl⟩]
          rfl
      · refine PerId_congr t2 i2 ?_ ?_ (hcase t2 i2)
        · show (Db.update db tid T2 t2).rows i2 = (db t2).rows i2
          apply hup_rows
          tauto
        · show entriesFor t2 i2 tmq.entries = entriesFor t2 i2 tm.entries
          rw [htmqe, entriesFor_append]
          have hz : entriesFor t2 i2 [TransactionEntry.existing tid id (ser e0.val)]
              = [] := by
            apply entriesFor_eq_nil
            intro en hen hcc
            rw [List.mem_singleton.mp hen] at hcc
            simp only [TransactionEntry.tableId, TransactionEntry.entityId] at hcc
            exact hpair ⟨hcc.1.symm, hcc.2.symm⟩
          rw [hz, List.append_nil]
  · -- entity already snapshotted in this transaction
    have hnlt : ¬ e.last_modified_transaction_id < tm.transaction_id := by omega
    have hwfe := (hwf tid).2 id e he
    have hidlt : id < (db tid).first_free_id := hrows tid id e he
    rw [execOp_mut_already ser db tm tid id f e he hnlt, (hwf tid).1,
      hwfe.1, hwfe.2]
    set T2 : Table V :=
      ⟨tid, fun k => if k = id then some ⟨id, tid, f e.val, e.last_modified_transaction_id⟩
        else (db tid).rows k, (db tid).first_free_id⟩ with hT2
    have hT2rows : ∀ k, T2.rows k
        = if k = id then some ⟨id, tid, f e.val, e.last_modified_transaction_id⟩
          else (db tid).rows k := fun _ => rfl
    have hT2ff : T2.first_free_id = (db tid).first_free_id := rfl
    have hup : ∀ t2, Db.update db tid T2 t2 = if t2 = tid then T2 else db t2 :=
      fun _ => rfl
    have hff_all : ∀ t2, (Db.update db tid T2 t2).first_free_id
        = (db t2).first_free_id := by
      intro t2
      rw [hup t2]
      by_cases ht : t2 = tid
      · subst ht; rw [if_pos rfl, hT2ff]
      · rw [if_neg ht]
    have hup_rows : ∀ t2 k, t2 ≠ tid ∨ k ≠ id →
        (Db.update db tid T2 t2).rows k = (db t2).rows k := by
      intro t2 k hor
      rw [hup t2]
      by_cases ht : t2 = tid
      · subst ht
        rw [if_pos rfl, hT2rows]
        rcases hor with h | h
        · exact absurd rfl h
        · rw [if_neg h]
      · rw [if_neg ht]
    refine ⟨htxn, hrun, ?_, ?_, ?_, ?_, ?_⟩
    · intro t2
      show (db0 t2).first_free_id ≤ (Db.update db tid T2 t2).first_free_id
      rw [hff_all t2]
      exact hffle t2
    · intro t2 k e2 h
      replace h : (Db.update db tid T2 t2).rows k = some e2 := h
      show k < (Db.update db tid T2 t2).first_free_id
      rw [hff_all t2]
      by_cases hm : t2 = tid ∧ k = id
      · obtain ⟨h1, h2⟩ := hm; subst h1; subst h2
        exact hidlt
      · rw [hup_rows t2 k (by tauto)] at h
        exact hrows t2 k e2 h
    · intro t2
      show (Db.update db tid T2 t2).id = t2 ∧
        ∀ k e2, (Db.update db tid T2 t2).rows k = some e2 → e2.table_id = t2 ∧ e2.id = k
      rw [hup t2]
      by_cases ht : t2 = tid
      · subst ht
        rw [if_pos rfl]
        refine ⟨rfl, ?_⟩
        intro k e2 h
        rw [hT2rows] at h
        by_cases hk : k = id
        · subst hk
          rw [if_pos rfl] at h
          cases h
          exact ⟨rfl, rfl⟩
        · rw [if_neg hk] at h
          exact (hwf t2).2 k e2 h
      · rw [if_neg ht]
        exact hwf t2
    · intro en hen
      replace hen : en ∈ tm.entries := hen
      show en.entityId < (Db.update db tid T2 en.tableId).first_free_id
      rw [hff_all]
      exact hent en hen
    · intro t2 i2
      by_cases hpair : t2 = tid ∧ i2 = id
      · obtain ⟨h1, h2⟩ := hpair
        subst h1
        subst h2
        refine Or.inr (Or.inl ⟨e0x, ⟨i2, t2, f e.val, e.last_modified_transaction_id⟩,
          he0x, ?_, ?_, ?_⟩)
        · show (Db.update db t2 T2 t2).rows i2 = _
          rw [hup, if_pos rfl, hT2rows, if_pos rfl]
        · exact helm
        · show entriesFor t2 i2 tm.entries = _
          exact hfor
      · refine PerId_congr t2 i2 ?_ ?_ (hcase t2 i2)
        · show (Db.update db tid T2 t2).rows i2 = (db t2).rows i2
          apply hup_rows
          tauto
        · rfl
  · -- the entity cannot have been created by this transaction
    rw [hn0] at he0
    exact Option.noConfusion he0

theorem execInv_step {V : Type} {db0 : Db V} {ser : V → List Nat} {txn : Nat}
    (hb0 : DbIdsBound db0) (hfr : DbFresh db0 txn)
    {s : Db V × TransactionManager} (inv : ExecInv db0 ser txn s)
    (op : DbOp V) (hop : opOK db0 op) :
    ExecInv db0 ser txn (execOp ser s op) := by
  obtain ⟨db, tm⟩ := s
  cases op with
  | addOp tid v => exact execInv_add hb0 inv tid v
  | mutOp tid id f => exact execInv_mut hfr inv tid id f hop
  | remOp tid id => exact hop.elim

theorem execInv_exec {V : Type} {db0 : Db V} {ser : V → List Nat} {txn : Nat}
    (hb0 : DbIdsBound db0) (hfr : DbFresh db0 txn) :
    ∀ (ops : List (DbOp V)) (s : Db V × TransactionManager),
      ExecInv db0 ser txn s → (∀ op ∈ ops, opOK db0 op) →
      ExecInv db0 ser txn (exec ser ops s) := by
  intro ops
  induction ops with
  | nil => intro s inv _; exact inv
  | cons op rest ih =>
      intro s inv hops
      exact ih _ (execInv_step hb0 hfr inv op (hops op (List.mem_cons_self _ _)))
        (fun x hx => hops x (List.mem_cons_of_mem _ hx))

-- ============================= Claim theorems ============================= --

/-- C1, counterexample: a command that calls `Table::remove` on a
pre-transaction entity (table 0, entity 1, value 7) and then fails is not
undone by the rollback — the entity stays deleted, so the post-rollback
database differs from the pre-transaction one.  `Table::remove` records no
undo entry, refuting the claim's quantification over commands that call
`remove`. -/
theorem c1_remove_escapes_rollback :
    ¬ Db.contentsEq
      ((TransactionManager.rollback_transaction deNat
          (exec serNat [DbOp.remOp 0 1] (c1db0, tmRunning2)).2
          (exec serNat [DbOp.remOp 0 1] (c1db0, tmRunning2)).1).2) c1db0 := by
  intro h
  exact absurd (h 0 1) (by decide)

/-- C1, amended: for every command whose mutations are insertions and
mutable accesses to entities that existed before the transaction (no
`Table::remove`, and no mutable access to entities the transaction itself
created), the rollback performed after the command errs restores the
observable contents of every table to the pre-transaction state. -/
theorem c1_rollback_restores_without_remove (V : Type)
    (ser : V → List Nat) (de : List Nat → V) (hde : ∀ v, de (ser v) = v)
    (db0 : Db V) (txn : Nat) (ops : List (DbOp V))
    (hwf0 : DbWF db0) (hb0 : DbIdsBound db0) (hfr : DbFresh db0 txn)
    (hops : ∀ op ∈ ops, opOK db0 op) :
    Db.contentsEq
      ((TransactionManager.rollback_transaction de
          (exec ser ops (db0, ⟨txn, [], true⟩)).2
          (exec ser ops (db0, ⟨txn, [], true⟩)).1).2) db0 := by
  have inv := execInv_exec hb0 hfr ops (db0, ⟨txn, [], true⟩)
    (execInv_init db0 ser txn hwf0 hb0) hops
  intro tid id
  show Db.valAt
      ((exec ser ops (db0, ⟨txn, [], true⟩)).2.entries.foldl (applyEntry de)
        (exec ser ops (db0, ⟨txn, [], true⟩)).1) tid id
    = Db.valAt db0 tid id
  rw [valAt_rollbackFold]
  have hc := inv.hcase tid id
  unfold PerId at hc
  rcases hc with ⟨h1, h2⟩ | ⟨e0, e, he0, he, hlm, hfor⟩ | ⟨hn0, ⟨e, he⟩, hfor⟩
  · rw [h1]
    show Db.valAt (exec ser ops (db0, ⟨txn, [], true⟩)).1 tid id = Db.valAt db0 tid id
    unfold Db.valAt
    rw [h2]
  · rw [hfor]
    show entryEffectVal de (.existing tid id (ser e0.val)) = Db.valAt db0 tid id
    rw [show entryEffectVal de (TransactionEntry.existing tid id (ser e0.val))
        = some (de (ser e0.val)) from rfl, hde]
    unfold Db.valAt
    rw [he0]
    rfl
  · rw [hfor]
    show entryEffectVal de (.notExisting tid id) = Db.valAt db0 tid id
    rw [show entryEffectVal de (TransactionEntry.notExisting tid id)
        = (none : Option V) from rfl]
    unfold Db.valAt
    rw [hn0]
    rfl

/-- Witness for the amended C1 theorem: a concrete transaction on `c1db0`
(mutate entity 1 of table 0, then add a fresh entity) whose rollback
restores the pre-transaction contents. -/
theorem c1_rollback_restores_without_remove_witness :
    Db.contentsEq
      ((TransactionManager.rollback_transaction deNat
          (exec serNat [DbOp.mutOp 0 1 (fun n => n + 1), DbOp.addOp 0 5]
            (c1db0, ⟨2, [], true⟩)).2
          (exec serNat [DbOp.mutOp 0 1 (fun n => n + 1), DbOp.addOp 0 5]
            (c1db0, ⟨2, [], true⟩)).1).2) c1db0 := by
  have hv : ∀ tid, tid ≠ 0 → c1db0 tid = ⟨tid, fun _ => none, 1⟩ := by
    intro tid h
    unfold c1db0
    rw [if_neg h]
  have hwf0 : DbWF c1db0 := by
    intro tid
    by_cases h : tid = 0
    · subst h
      refine ⟨rfl, ?_⟩
      intro id e he
      replace he : (if id = 1 then some (Entity.new 1 0 7) else none) = some e := he
      by_cases hid : id = 1
      · subst hid
        rw [if_pos rfl] at he
        cases he
        exact ⟨rfl, rfl⟩
      · rw [if_neg hid] at he
        exact Option.noConfusion he
    · rw [hv tid h]
      exact ⟨rfl, fun id e he => Option.noConfusion he⟩
  have hb0 : DbIdsBound c1db0 := by
    intro tid id e he
    by_cases h : tid = 0
    · subst h
      replace he : (if id = 1 then some (Entity.new 1 0 7) else none) = some e := he
      by_cases hid : id = 1
      · subst hid
        show 1 < 2
        omega
      · rw [if_neg hid] at he
        exact Option.noConfusion he
    · rw [hv tid h] at he
      exact Option.noConfusion he
  have hfr : DbFresh c1db0 2 := by
    intro tid id e he
    by_cases h : tid = 0
    · subst h
      replace he : (if id = 1 then some (Entity.new 1 0 7) else none) = some e := he
      by_cases hid : id = 1
      · subst hid
        rw [if_pos rfl] at he
        cases he
        show 0 < 2
        omega
      · rw [if_neg hid] at he
        exact Option.noConfusion he
    · rw [hv tid h] at he
      exact Option.noConfusion he
  have hops : ∀ op ∈ [DbOp.mutOp 0 1 (fun n => n + 1), DbOp.addOp 0 5],
      opOK c1db0 op := by
    intro op hop
    rcases List.mem_cons.mp hop with h | hop
    · subst h
      exact ⟨Entity.new 1 0 7, rfl⟩
    · rcases List.mem_cons.mp hop with h | hop
      · subst h
        trivial
      · exact absurd hop (List.not_mem_nil _)
  exact c1_rollback_restores_without_remove Nat serNat deNat (fun v => rfl)
    c1db0 2 _ hwf0 hb0 hfr hops

/-- C2, counterexample: `rollback_transaction` does not reset the running
flag — on a manager with `transaction_running = true` the flag is still
`true` after rollback, refuting "the running flag is false" on return. -/
theorem c2_rollback_leaves_running_flag :
    (TransactionManager.rollback_transaction deNat ⟨3, [], true⟩ dbEmptyNat).1.transaction_running
      ≠ false := by
  decide

/-- C2, amended: for every manager state with `running = true`,
`rollback_transaction` walks the undo entries in insertion order — folding
the per-entry dispatch (`get_table_mut` then `rollback_to_existing` or
`rollback_to_not_existing`) over the database — and on return the entry list
is empty, while the running flag and the transaction id are left unchanged
(the source never clears the flag on rollback; only `commit_transaction`
does). -/
theorem c2_rollback_walks_in_order (V : Type) (de : List Nat → V)
    (tm : TransactionManager) (db : Db V)
    (hrun : tm.transaction_running = true) :
    (tm.rollback_transaction de db).1.entries = [] ∧
    (tm.rollback_transaction de db).1.transaction_running = true ∧
    (tm.rollback_transaction de db).1.transaction_id = tm.transaction_id ∧
    (tm.rollback_transaction de db).2 = tm.entries.foldl (applyEntry de) db := by
  exact ⟨rfl, hrun, rfl, rfl⟩

/-- Witness for the amended C2 theorem at a concrete running manager with
one undo entry. -/
theorem c2_rollback_walks_in_order_witness :
    (⟨3, [TransactionEntry.notExisting 0 1], true⟩ : TransactionManager).transaction_running
        = true ∧
    ((⟨3, [TransactionEntry.notExisting 0 1], true⟩ : TransactionManager).rollback_transaction
        deNat dbEmptyNat).1.entries = [] ∧
    ((⟨3, [TransactionEntry.notExisting 0 1], true⟩ : TransactionManager).rollback_transaction
        deNat dbEmptyNat).1.transaction_running = true ∧
    ((⟨3, [TransactionEntry.notExisting 0 1], true⟩ : TransactionManager).rollback_transaction
        deNat dbEmptyNat).1.transaction_id
      = (⟨3, [TransactionEntry.notExisting 0 1], true⟩ : TransactionManager).transaction_id ∧
    ((⟨3, [TransactionEntry.notExisting 0 1], true⟩ : TransactionManager).rollback_transaction
        deNat dbEmptyNat).2
      = (⟨3, [TransactionEntry.notExisting 0 1], true⟩ : TransactionManager).entries.foldl
          (applyEntry deNat) dbEmptyNat :=
  ⟨rfl, c2_rollback_walks_in_order Nat deNat ⟨3, [TransactionEntry.notExisting 0 1], true⟩
    dbEmptyNat rfl⟩

/-- C3, counterexample: `begin_transaction` performs no precondition check.
Called on a manager that is already running, it does not fail with any
error — it increments the transaction id and returns normally, so the state
changes, refuting "fails with an InvariantViolated error instead of changing
state". -/
theorem c3_begin_while_running_changes_state :
    (⟨5, [], true⟩ : TransactionManager).begin_transaction = ⟨6, [], true⟩ ∧
    (⟨5, [], true⟩ : TransactionManager).begin_transaction ≠ ⟨5, [], true⟩ := by
  constructor <;> decide

/-- C3, amended: `begin_transaction` unconditionally increments
`current_txn_id` by one and sets the running flag, leaving the entry list
untouched; it has no precondition and cannot fail, even while a transaction
is running. -/
theorem c3_begin_unconditional (tm : TransactionManager) :
    tm.begin_transaction = ⟨tm.transaction_id + 1, tm.entries, true⟩ := rfl

/-- C4, counterexample: an entity created by `Table::add` inside a running
transaction (table 0, entity 1, value 7) and then mutated once ends up with
TWO undo entries — the `NotExisting` from `add` plus an `Existing` from the
first mutable access (whose `last_modified_transaction_id` starts at 0) —
refuting "exactly one NotExisting entry … further mutable accesses … append
nothing". -/
theorem c4_created_entity_two_entries :
    (applyMuts serNat [fun n => n + 1]
        (((Table.new 0 : Table Nat).add tmRunning2 7).2.1, Entity.new 1 0 7)).1.entries
      = [.notExisting 0 1, .existing 0 1 [7]] ∧
    (entriesFor 0 1 (applyMuts serNat [fun n => n + 1]
        (((Table.new 0 : Table Nat).add tmRunning2 7).2.1,
          Entity.new 1 0 7)).1.entries).length = 2 := by
  constructor <;> decide

/-- C4, amended: within one running transaction, for an entity mutated k ≥ 1
times through the mutable-access path: if it existed before the transaction
(snapshot marker below the current transaction id), the undo log gains
exactly one `Existing` entry holding the serialization of its
pre-transaction value, and further mutable accesses append nothing; if it
was created by the transaction via `Table::add`, the log gains the
`NotExisting` entry from `add` AND one `Existing` entry from the first
mutable access (holding the value at creation), further accesses appending
nothing. -/
theorem c4_one_snapshot_per_entity (V : Type) (ser : V → List Nat)
    (tm : TransactionManager) (fs : List (V → V))
    (hrun : tm.transaction_running = true) (hne : fs ≠ [])
    (htxn : 0 < tm.transaction_id) :
    (∀ e : Entity V, e.last_modified_transaction_id < tm.transaction_id →
      (applyMuts ser fs (tm, e)).1.entries
        = tm.entries ++ [.existing e.table_id e.id (ser e.val)]) ∧
    (∀ (t : Table V) (v : V),
      (applyMuts ser fs ((t.add tm v).2.1, Entity.new t.first_free_id t.id v)).1.entries
        = tm.entries ++ [.notExisting t.id t.first_free_id,
            .existing t.id t.first_free_id (ser v)]) := by
  constructor
  · intro e hlm
    exact applyMuts_first ser tm e fs hrun hlm hne
  · intro t v
    have hadd : (t.add tm v).2.1 = tm.add_entry (.notExisting t.id t.first_free_id) := by
      simp [Table.add, TransactionManager.is_transaction_running, hrun]
    rw [hadd]
    have h1 := applyMuts_first ser (tm.add_entry (.notExisting t.id t.first_free_id))
      (Entity.new t.first_free_id t.id v) fs
      (by simpa [TransactionManager.add_entry] using hrun)
      (by simpa [TransactionManager.add_entry, Entity.new] using htxn)
      hne
    rw [h1]
    simp [TransactionManager.add_entry, Entity.new, List.append_assoc]

/-- Witness for the amended C4 theorem at one concrete mutation under a
running manager. -/
theorem c4_one_snapshot_per_entity_witness :
    tmRunning2.transaction_running = true ∧
    ([fun n : Nat => n + 1] ≠ ([] : List (Nat → Nat))) ∧
    0 < tmRunning2.transaction_id ∧
    ((∀ e : Entity Nat,
        e.last_modified_transaction_id < tmRunning2.transaction_id →
        (applyMuts serNat [fun n : Nat => n + 1] (tmRunning2, e)).1.entries
          = tmRunning2.entries ++ [.existing e.table_id e.id (serNat e.val)]) ∧
      (∀ (t : Table Nat) (v : Nat),
        (applyMuts serNat [fun n : Nat => n + 1]
            ((t.add tmRunning2 v).2.1, Entity.new t.first_free_id t.id v)).1.entries
          = tmRunning2.entries ++ [.notExisting t.id t.first_free_id,
              .existing t.id t.first_free_id (serNat v)])) :=
  ⟨rfl, List.cons_ne_nil _ _, by decide,
    c4_one_snapshot_per_entity Nat serNat tmRunning2 [fun n => n + 1]
      rfl (List.cons_ne_nil _ _) (by decide)⟩

/-- C5: on construction over a journal of n records the engine replays each
record in order — resolving it by name and running the resulting bound
command, treating an `Err` as fatal — incrementing the processed counter
once per record, so on success `last_processed_txn_id = n` and
`last_submitted_txn_id` equals it; over the null journal (no records) both
counters are 0 and the database is untouched. -/
theorem c5_replay_counters {D : Type} (dir : String → List Nat → D → Except String D)
    (journal : List SerializedTransaction) (db db1 : D) (ce : CommandEngineSt)
    (h : CommandEngine.new dir journal db = some (ce, db1)) :
    ce.last_processed_transaction_id = journal.length ∧
    ce.last_pushed_transaction_id = ce.last_processed_transaction_id ∧
    CommandEngine.new dir ([] : List SerializedTransaction) db
      = some (⟨0, 0, []⟩, db) := by
  unfold CommandEngine.new at h
  cases hr : replayAll dir journal db 0 with
  | none =>
      rw [hr] at h
      exact Option.noConfusion h
  | some p =>
      obtain ⟨db2, n⟩ := p
      rw [hr] at h
      have hn := replayAll_count dir journal db 0 n db2 hr
      cases h
      exact ⟨by show n = journal.length; omega, rfl, rfl⟩

/-- Witness for C5: replaying a one-record journal yields both counters
equal to 1. -/
theorem c5_replay_counters_witness :
    CommandEngine.new c7dir c7journal dbEmptyNat
        = some (⟨1, 1, []⟩, addPlain dbEmptyNat 0 20) ∧
    (⟨1, 1, []⟩ : CommandEngineSt).last_processed_transaction_id = c7journal.length ∧
    (⟨1, 1, []⟩ : CommandEngineSt).last_pushed_transaction_id
      = (⟨1, 1, []⟩ : CommandEngineSt).last_processed_transaction_id ∧
    CommandEngine.new c7dir ([] : List SerializedTransaction) dbEmptyNat
      = some (⟨0, 0, []⟩, dbEmptyNat) :=
  ⟨rfl, c5_replay_counters c7dir c7journal dbEmptyNat (addPlain dbEmptyNat 0 20)
    ⟨1, 1, []⟩ rfl⟩

/-- C6: starting from a fresh table, along any in-process trace of `add`,
`remove`, `rollback_to_existing` and `rollback_to_not_existing` (where
rollback ids come from previously recorded live entities), the ids returned
by `add` are exactly the consecutive run 1, 2, … — strictly increasing,
never reassigned — `first_free_id` is never decremented (it equals 1 plus
the number of adds), and the invariant that every live id is strictly below
`first_free_id` is preserved. -/
theorem c6_add_ids_monotonic_and_inv (V : Type) (de : List Nat → V)
    (tblid : Nat) (ops : List (TableOp V))
    (hwf : opsWF de (Table.new tblid) ops) :
    addsIds de (Table.new tblid) ops = idsFrom 1 (numAdds ops) ∧
    List.Pairwise (· < ·) (addsIds de (Table.new tblid) ops) ∧
    (ops.foldl (applyTableOp de) (Table.new tblid)).first_free_id = 1 + numAdds ops ∧
    tableInv (ops.foldl (applyTableOp de) (Table.new tblid)) := by
  have h1 : addsIds de (Table.new tblid) ops = idsFrom 1 (numAdds ops) :=
    addsIds_eq de ops (Table.new tblid)
  refine ⟨h1, ?_, ?_, ?_⟩
  · rw [h1]
    exact idsFrom_pairwise (numAdds ops) 1
  · exact foldl_first_free de ops (Table.new tblid)
  · exact tableInv_fold de ops (Table.new tblid)
      (fun id e he => Option.noConfusion he) hwf

/-- Witness for C6 on a concrete trace with two adds, a removal-style
rollback and a restore-style rollback. -/
theorem c6_add_ids_monotonic_and_inv_witness :
    opsWF deNat (Table.new 0)
        [TableOp.addT 5, TableOp.rbNotExistingT 1, TableOp.addT 6,
          TableOp.rbExistingT 1 [9]] ∧
    (addsIds deNat (Table.new 0)
        [TableOp.addT 5, TableOp.rbNotExistingT 1, TableOp.addT 6,
          TableOp.rbExistingT 1 [9]] = idsFrom 1 (numAdds
            [TableOp.addT (5 : Nat), TableOp.rbNotExistingT 1, TableOp.addT 6,
              TableOp.rbExistingT 1 [9]]) ∧
      List.Pairwise (· < ·) (addsIds deNat (Table.new 0)
        [TableOp.addT 5, TableOp.rbNotExistingT 1, TableOp.addT 6,
          TableOp.rbExistingT 1 [9]]) ∧
      ([TableOp.addT (5 : Nat), TableOp.rbNotExistingT 1, TableOp.addT 6,
          TableOp.rbExistingT 1 [9]].foldl (applyTableOp deNat)
            (Table.new 0)).first_free_id
        = 1 + numAdds [TableOp.addT (5 : Nat), TableOp.rbNotExistingT 1,
            TableOp.addT 6, TableOp.rbExistingT 1 [9]] ∧
      tableInv ([TableOp.addT (5 : Nat), TableOp.rbNotExistingT 1, TableOp.addT 6,
          TableOp.rbExistingT 1 [9]].foldl (applyTableOp deNat) (Table.new 0))) :=
  ⟨⟨trivial, trivial, trivial, by decide, trivial⟩,
    c6_add_ids_monotonic_and_inv Nat deNat 0 _
      ⟨trivial, trivial, trivial, by decide, trivial⟩⟩

/-- C7, counterexample: in the source, `Engine::new` runs `init_fn` BEFORE
journal replay, not after.  With an `init` that inserts the value 10 and a
one-record journal whose command inserts the value 20, the source order
gives entity 1 the value 10 (init ran first); the spec-modelled order
(`Engine.newSpecOrder`, init after replay) gives entity 1 the value 20.  The
two constructions produce different databases, refuting "init_fn is invoked
only after journal replay has completed". -/
theorem c7_init_order_differs_from_spec :
    Option.map (fun p => p.2.valAt 0 1)
        (Engine.new c7dir c7journal dbEmptyNat c7init) = some (some 10) ∧
    Option.map (fun p => p.2.valAt 0 1)
        (Engine.newSpecOrder c7dir c7journal dbEmptyNat c7init) = some (some 20) ∧
    Option.map (fun p : CommandEngineSt × Db Nat => p.2.valAt 0 1)
        (Engine.new c7dir c7journal dbEmptyNat c7init)
      ≠ Option.map (fun p : CommandEngineSt × Db Nat => p.2.valAt 0 1)
        (Engine.newSpecOrder c7dir c7journal dbEmptyNat c7init) := by
  refine ⟨by decide, by decide, by decide⟩

/-- C7, amended: `init_fn` is applied exactly once, to the freshly created
database BEFORE replay begins; replay then runs against the init-seeded
database.  In particular with an empty journal the engine starts with
counters 0 over `init` of the fresh database. -/
theorem c7_init_before_replay (V : Type)
    (dir : String → List Nat → Db V → Except String (Db V))
    (journal : List SerializedTransaction) (create_database : Db V)
    (init : Db V → Db V) :
    Engine.new dir journal create_database init
        = CommandEngine.new dir journal (init create_database) ∧
    Engine.new dir ([] : List SerializedTransaction) create_database init
        = some (⟨0, 0, []⟩, init create_database) :=
  ⟨rfl, rfl⟩

/-- C8: journal record round-trip.  Appending any list of records (name
bytes, parameter bytes, lengths below 2^64) with `TransactionStorage::add`
writes `name_length` as u64 little-endian, the name bytes, `params_length`
and the parameter bytes; reading the same stream back with
`TransactionStorage::get` yields exactly the original records in append
order, after which `get` returns `None`; and on any stream `get` returns
`None` exactly when the read cursor has exhausted the data. -/
theorem c8_journal_roundtrip (rs : List (List Nat × List Nat))
    (hlens : ∀ r ∈ rs, r.1.length < 256 ^ 8 ∧ r.2.length < 256 ^ 8) :
    (readRecords rs.length (mkJournal rs)).1 = rs ∧
    TransactionStorage.get (readRecords rs.length (mkJournal rs)).2 = none ∧
    ∀ s : ByteStream, (TransactionStorage.get s = none ↔ s.data.length ≤ s.pos) := by
  have hmk := mkJournal_foldl rs ⟨[], 0⟩
  have hdata : (mkJournal rs).data = encAll rs := by
    show (rs.foldl (fun s r => TransactionStorage.add s r.1 r.2) ⟨[], 0⟩).data = _
    rw [hmk.1]
    rw [List.nil_append]
  have hpos : (mkJournal rs).pos = 0 := hmk.2
  have hdrop : (mkJournal rs).data.drop (mkJournal rs).pos = encAll rs := by
    rw [hpos, hdata, List.drop_zero]
  have hr := readRecords_encAll rs (mkJournal rs) hlens hdrop
  exact ⟨hr.1, (get_none_iff _).mpr hr.2, get_none_iff⟩

/-- Witness for C8 on a concrete two-record journal. -/
theorem c8_journal_roundtrip_witness :
    (∀ r ∈ [([65, 66], [1, 2, 3]), ([67], ([] : List Nat))],
        r.1.length < 256 ^ 8 ∧ r.2.length < 256 ^ 8) ∧
    ((readRecords [([65, 66], [1, 2, 3]), ([67], ([] : List Nat))].length
        (mkJournal [([65, 66], [1, 2, 3]), ([67], [])])).1
      = [([65, 66], [1, 2, 3]), ([67], [])] ∧
      TransactionStorage.get (readRecords
          [([65, 66], [1, 2, 3]), ([67], ([] : List Nat))].length
          (mkJournal [([65, 66], [1, 2, 3]), ([67], [])])).2 = none ∧
      ∀ s : ByteStream, (TransactionStorage.get s = none ↔ s.data.length ≤ s.pos)) :=
  ⟨by decide, c8_journal_roundtrip _ (by decide)⟩

/-- C9: `get_transaction_status` answers `Completed` for EVERY id at most
`last_processed_transaction_id` that is absent from the failed list —
including id 0 and ids never returned by `push_command` — since the check is
only the numeric comparison followed by the failed-list membership test. -/
theorem c9_status_completed (ce : CommandEngineSt) (transaction_id : Nat)
    (h1 : transaction_id ≤ ce.last_processed_transaction_id)
    (h2 : transaction_id ∉ ce.failed_transaction_ids) :
    CommandEngine.get_transaction_status ce transaction_id = .completed := by
  unfold CommandEngine.get_transaction_status
  rw [if_neg (by omega), if_neg h2]

/-- Witness for C9: the never-submitted id 0 reports `Completed` on a fresh
engine. -/
theorem c9_status_completed_witness :
    0 ≤ (⟨0, 0, []⟩ : CommandEngineSt).last_processed_transaction_id ∧
    0 ∉ (⟨0, 0, []⟩ : CommandEngineSt).failed_transaction_ids ∧
    CommandEngine.get_transaction_status ⟨0, 0, []⟩ 0 = .completed :=
  ⟨by decide, by decide, c9_status_completed ⟨0, 0, []⟩ 0 (by decide) (by decide)⟩

/-- C10: with no transaction running, `Table::add` still inserts the entity
(and returns its id) and mutable entity access still hands out the value,
but neither touches the transaction manager: no undo entry is appended, the
manager state is unchanged, and a rollback over the (empty) log leaves the
database untouched — the writes are permanent.  `Engine::new`'s `init_fn`
seeding relies on exactly this. -/
theorem c10_no_txn_no_undo (V : Type) (ser : V → List Nat) (de : List Nat → V)
    (t : Table V) (tm : TransactionManager) (v : V) (e : Entity V) (db : Db V)
    (hrun : tm.transaction_running = false) :
    (t.add tm v).1.rows t.first_free_id = some (Entity.new t.first_free_id t.id v) ∧
    (t.add tm v).2.1 = tm ∧
    (t.add tm v).2.2 = t.first_free_id ∧
    e.deref_mut ser tm = (tm, e) ∧
    (tm.entries = [] → (tm.rollback_transaction de db).2 = db) := by
  refine ⟨?_, ?_, rfl, deref_mut_not_running ser tm e hrun, ?_⟩
  · show (if t.first_free_id = t.first_free_id
        then some (Entity.new t.first_free_id t.id v)
        else t.rows t.first_free_id) = _
    rw [if_pos rfl]
  · simp [Table.add, TransactionManager.is_transaction_running, hrun]
  · intro he
    show tm.entries.foldl (applyEntry de) db = db
    rw [he]
    rfl

/-- Witness for C10 with a fresh (not running) manager, an empty table and a
standalone entity. -/
theorem c10_no_txn_no_undo_witness :
    TransactionManager.new.transaction_running = false ∧
    (((Table.new 0 : Table Nat).add TransactionManager.new 7).1.rows
        (Table.new 0 : Table Nat).first_free_id
      = some (Entity.new (Table.new 0 : Table Nat).first_free_id
          (Table.new 0 : Table Nat).id 7) ∧
      ((Table.new 0 : Table Nat).add TransactionManager.new 7).2.1
        = TransactionManager.new ∧
      ((Table.new 0 : Table Nat).add TransactionManager.new 7).2.2
        = (Table.new 0 : Table Nat).first_free_id ∧
      (Entity.new 1 0 7).deref_mut serNat TransactionManager.new
        = (TransactionManager.new, Entity.new 1 0 7) ∧
      (TransactionManager.new.entries = [] →
        (TransactionManager.new.rollback_transaction deNat dbEmptyNat).2
          = dbEmptyNat)) :=
  ⟨rfl, c10_no_txn_no_undo Nat serNat deNat (Table.new 0) TransactionManager.new 7
    (Entity.new 1 0 7) dbEmptyNat rfl⟩

end MicroDB
